import Mathlib

/-!
# Key-path mapping and derivative pipeline of `main.go`

A shallow embedding of the Go program `main.go` (an S3-triggered thumbnail
generator) together with theorems about its key derivation, its preset
registry and its failure behaviour.

## Modelling conventions

* A Go `string` is a finite sequence of bytes.  It is modelled as a
  `List Char`, a byte `b` being the character with code `b`; an ASCII literal
  denotes itself.  Every function below only compares characters with the
  ASCII separators `/`, `.`, `-`, so statements over all `List Char` cover all
  Go strings.
* `len(s)` is `s.length` as an `Int`; a slice expression `s[lo:hi]` panics
  unless `0 ≤ lo ≤ hi ≤ len(s)`.  A panic is the value `none`.
* `fmt.Sprintf` with `%s` verbs is concatenation; `%d` is the decimal
  rendering of the integer.
-/

namespace Thumbnail

/-- A Go string: a sequence of bytes, each written as a character. -/
abbrev GoString := List Char

/-- Go `os.IsPathSeparator` on Unix: the byte is `/`. -/
def IsPathSeparator (c : Char) : Bool := c == '/'

/-- Go slice expression `s[lo:hi]` on a string, with the run-time bounds
check `0 ≤ lo ≤ hi ≤ len(s)`; `none` is the out-of-range panic. -/
def slice (s : GoString) (lo hi : Int) : Option GoString :=
  if 0 ≤ lo ∧ lo ≤ hi ∧ hi ≤ (s.length : Int) then
    some ((s.take hi.toNat).drop lo.toNat)
  else
    none

/-- Go `filepath.Base` (Unix, where the volume name is empty).

```go
if path == "" { return "." }
for len(path) > 0 && os.IsPathSeparator(path[len(path)-1]) { path = path[0 : len(path)-1] }
i := len(path) - 1
for i >= 0 && !os.IsPathSeparator(path[i]) { i-- }
if i >= 0 { path = path[i+1:] }
if path == "" { return string(Separator) }
return path
```
The two loops run from the end of the string, so they are written on the
reversed string. -/
def Base (path : GoString) : GoString :=
  if path = [] then ['.']
  else
    let stripped := path.reverse.dropWhile IsPathSeparator
    let last := (stripped.takeWhile (fun c => !IsPathSeparator c)).reverse
    if last = [] then ['/'] else last

/-- The loop of Go `filepath.Ext`, on the reversed string: `rev` holds the
bytes `path[i], path[i-1], …, path[0]` still to be visited and `acc` is
`path[i+1:]`. -/
def extLoop : GoString → GoString → GoString
  | [], _ => []
  | c :: rev, acc =>
    if IsPathSeparator c then []
    else if c = '.' then c :: acc
    else extLoop rev (c :: acc)

/-- Go `filepath.Ext`.

```go
for i := len(path) - 1; i >= 0 && !os.IsPathSeparator(path[i]); i-- {
    if path[i] == '.' { return path[i:] }
}
return ""
``` -/
def Ext (path : GoString) : GoString := extLoop path.reverse []

/-- Go `strings.Split(s, sep)` for a one-byte separator: the substrings
between the occurrences of `sep`; a string without `sep` (the empty string
included) gives the one-element list `[s]`. -/
def Split (s : GoString) (sep : Char) : List GoString :=
  match s with
  | [] => [[]]
  | c :: cs =>
    if c = sep then [] :: Split cs sep
    else
      match Split cs sep with
      | [] => [[c]]
      | p :: ps => (c :: p) :: ps

/-- Go `strings.Join(elems, sep)`. -/
def Join : List GoString → GoString → GoString
  | [], _ => []
  | [a], _ => a
  | a :: b :: rest, sep => a ++ sep ++ Join (b :: rest) sep

/-- The Go struct `ResizeConfig`. -/
structure ResizeConfig where
  Name : GoString
  Width : Int
  Height : Int
  Quality : Int
  deriving DecidableEq, Repr

/-- Go `(*ResizeConfig).DestBucket`. -/
def ResizeConfig.DestBucket (_config : ResizeConfig) : GoString := "hngry-images".toList

/-- The Go struct `SrcObject`. -/
structure SrcObject where
  Key : GoString
  Bucket : GoString
  TempfileName : GoString
  Extension : GoString
  BasePath : GoString
  FileName : GoString
  deriving DecidableEq, Repr

/-- Go `(*SrcObject).SetObject`, run on a zero-valued `SrcObject`; the result
is the struct after the call, or `none` when a slice expression panics. -/
def SetObject (bucket key : GoString) : Option SrcObject :=
  let fileNameWithExt := Base key
  let extension := Ext fileNameWithExt
  let tempfileName := "/tmp/".toList ++ fileNameWithExt
  match slice fileNameWithExt 0 ((fileNameWithExt.length : Int) - (extension.length : Int)) with
  | none => none
  | some fileName =>
    let parts := Split fileName '-'
    match slice key 0 ((key.length : Int) - (fileNameWithExt.length : Int)) with
    | none => none
    | some dir =>
      some
        { Key := key
          Bucket := bucket
          TempfileName := tempfileName
          Extension := extension
          BasePath := dir ++ Join parts "/".toList ++ "/".toList
          FileName := fileName }

/-- Go `(*SrcObject).GetDestObjectKey`. -/
def SrcObject.GetDestObjectKey (so : SrcObject) (thumbName : GoString) : GoString :=
  so.BasePath ++ thumbName ++ so.Extension

/-- Go `(*SrcObject).IsValidImage`. -/
def SrcObject.IsValidImage (_so : SrcObject) : Bool := true

/-- Go `(*SrcObject).GetThumbTempFileName`. -/
def SrcObject.GetThumbTempFileName (so : SrcObject) (thumbName : GoString) : GoString :=
  "/tmp/".toList ++ so.FileName ++ "_".toList ++ thumbName ++ so.Extension

/-- Go `initializeConfigs`: four `append`s to an empty slice. -/
def initializeConfigs : List ResizeConfig :=
  let c : List ResizeConfig := []
  let c := c ++ [{ Name := "thumbnail".toList, Width := 200, Height := 200, Quality := 95 }]
  let c := c ++ [{ Name := "thumbnail-2x".toList, Width := 400, Height := 400, Quality := 80 }]
  let c := c ++ [{ Name := "gallery".toList, Width := 600, Height := 600, Quality := 80 }]
  let c := c ++ [{ Name := "gallery-2x".toList, Width := 1024, Height := 1024, Quality := 75 }]
  c

/-- The Go package variable `ResizeConfigs`. -/
def ResizeConfigs : List ResizeConfig := initializeConfigs

/-- The trailing segment of a key: what follows its last `/` (the whole key
when it has none). -/
def trailingSegment (s : GoString) : GoString :=
  (s.reverse.takeWhile (fun c => c != '/')).reverse

/-- The upload targets of one source object: each preset of the registry, in
registry order, mapped to the bucket and key `createThumbnail` passes to
`uploadFileToS3`. -/
def uploadTargets (so : SrcObject) : List (GoString × GoString) :=
  ResizeConfigs.map (fun config => (config.DestBucket, so.GetDestObjectKey config.Name))

/-- The last path element, as `Base` computes it before its final test. -/
def lastElem (path : GoString) : GoString :=
  ((path.reverse.dropWhile IsPathSeparator).takeWhile (fun c => !IsPathSeparator c)).reverse

/-- Replace every `-` by `/`: what `Join (Split s '-') "/"` computes. -/
def hyphensToSlashes (s : GoString) : GoString := s.map (fun c => if c = '-' then '/' else c)

/-! ## The outside world

`resizeS3Object` and its callees talk to S3, to the local file system and to
the external `convert` program.  Each such call is an event; whether it
succeeds is decided by a `World`, which may look at all calls made so far.
Every function takes the calls made so far and returns them extended by its
own calls, in order, together with the way it ended. -/

/-- A call to an external collaborator. -/
inductive Call where
  /-- Go `svc.GetObject` with the given bucket and key. -/
  | GetObject (bucket key : GoString)
  /-- Go `os.Create(name)`. -/
  | Create (name : GoString)
  /-- Go `io.Copy(file, result.Body)`, `file` being the created file `name`. -/
  | Copy (name : GoString)
  /-- Go `exec.Command("convert", args...).Run()`. -/
  | Run (args : List GoString)
  /-- Go `os.Open(name)`. -/
  | Open (name : GoString)
  /-- Go `svc.PutObject` with the given bucket and key. -/
  | PutObject (bucket key : GoString)
  deriving DecidableEq, Repr

/-- The outside world: given the calls made so far (oldest first) and a new
call, whether the new call succeeds. -/
abbrev World := List Call → Call → Bool

/-- A Go `error` value: `none` is `nil`, `some c` is the error of the failed
call `c`. -/
abbrev GoError := Option Call

/-- How a Go function ends: it returns a value, the process exits
(`os.Exit`, `log.Fatal`), or a run-time panic unwinds the process. -/
inductive Outcome (α : Type) where
  | returned (a : α)
  | exited (code : Int)
  | panicked
  deriving DecidableEq, Repr

/-- The result of running a function: all calls made so far and its outcome. -/
structure Exec (α : Type) where
  trace : List Call
  out : Outcome α
  deriving DecidableEq, Repr

/-- Go `fmt.Sprintf("%d", n)`. -/
def formatInt (n : Int) : GoString := (toString n).toList

/-- The argument list `args` built in `createThumbnail`. -/
def convertArgs (config : ResizeConfig) (srcObj : SrcObject) : List GoString :=
  ["-thumbnail".toList,
   formatInt config.Width ++ "x".toList ++ formatInt config.Height,
   "-quality".toList,
   formatInt config.Quality,
   srcObj.TempfileName,
   srcObj.GetThumbTempFileName config.Name]

/-- Go `uploadFileToS3`.  When `os.Open` fails the error is only printed;
`file` is then `nil`, `file.Stat()` returns a `nil` `FileInfo`, and
`fileInfo.Size()` panics.  Otherwise the file is read (read errors are
ignored by the code) and `svc.PutObject` is called; its error is returned. -/
def uploadFileToS3 (w : World) (t : List Call) (filename bucketName objKey : GoString) :
    Exec GoError :=
  if w t (Call.Open filename) then
    let t1 := t ++ [Call.Open filename]
    if w t1 (Call.PutObject bucketName objKey) then
      ⟨t1 ++ [Call.PutObject bucketName objKey], Outcome.returned none⟩
    else
      ⟨t1 ++ [Call.PutObject bucketName objKey],
        Outcome.returned (some (Call.PutObject bucketName objKey))⟩
  else
    ⟨t ++ [Call.Open filename], Outcome.panicked⟩

/-- Go `createThumbnail`: run `convert`; when it fails, `os.Exit(1)`;
otherwise upload the output file and return the upload's error. -/
def createThumbnail (w : World) (t : List Call) (config : ResizeConfig) (srcObj : SrcObject) :
    Exec GoError :=
  let outputFileName := srcObj.GetThumbTempFileName config.Name
  let args := convertArgs config srcObj
  if w t (Call.Run args) then
    uploadFileToS3 w (t ++ [Call.Run args]) outputFileName config.DestBucket
      (srcObj.GetDestObjectKey config.Name)
  else
    ⟨t ++ [Call.Run args], Outcome.exited 1⟩

/-- The loop `for _, resizeConfig := range ResizeConfigs { err = createThumbnail(...) }`
of `resizeS3Object`, over the presets still to visit.  The error assigned to
`err` is never read. -/
def thumbnailLoop (w : World) (srcObj : SrcObject) : List ResizeConfig → List Call → Exec Unit
  | [], t => ⟨t, Outcome.returned ()⟩
  | config :: rest, t =>
    match createThumbnail w t config srcObj with
    | ⟨t1, Outcome.returned _⟩ => thumbnailLoop w srcObj rest t1
    | ⟨t1, Outcome.exited code⟩ => ⟨t1, Outcome.exited code⟩
    | ⟨t1, Outcome.panicked⟩ => ⟨t1, Outcome.panicked⟩

/-- Go `resizeS3Object`: fetch the object (`GetObject`, `os.Create`,
`io.Copy`, each ending the process through `log.Fatal` on failure), then run
the preset loop and `return nil`. -/
def resizeS3Object (w : World) (t : List Call) (srcObj : SrcObject) : Exec GoError :=
  if w t (Call.GetObject srcObj.Bucket srcObj.Key) then
    let t1 := t ++ [Call.GetObject srcObj.Bucket srcObj.Key]
    if w t1 (Call.Create srcObj.TempfileName) then
      let t2 := t1 ++ [Call.Create srcObj.TempfileName]
      if w t2 (Call.Copy srcObj.TempfileName) then
        let t3 := t2 ++ [Call.Copy srcObj.TempfileName]
        match thumbnailLoop w srcObj ResizeConfigs t3 with
        | ⟨t4, Outcome.returned _⟩ => ⟨t4, Outcome.returned none⟩
        | ⟨t4, Outcome.exited code⟩ => ⟨t4, Outcome.exited code⟩
        | ⟨t4, Outcome.panicked⟩ => ⟨t4, Outcome.panicked⟩
      else
        ⟨t2 ++ [Call.Copy srcObj.TempfileName], Outcome.exited 1⟩
    else
      ⟨t1 ++ [Call.Create srcObj.TempfileName], Outcome.exited 1⟩
  else
    ⟨t ++ [Call.GetObject srcObj.Bucket srcObj.Key], Outcome.exited 1⟩

/-- The part of an `events.S3EventRecord` the handler reads:
`record.S3.Bucket.Name` and `record.S3.Object.Key`. -/
structure S3EventRecord where
  BucketName : GoString
  ObjectKey : GoString
  deriving DecidableEq, Repr

/-- Go `events.S3Event`. -/
structure S3Event where
  Records : List S3EventRecord
  deriving DecidableEq, Repr

/-- The loop over `s3Event.Records` of `ResizeImages`, over the records still
to visit; `err` is the current value of the variable `err`. -/
def recordsLoop (w : World) : List S3EventRecord → GoError → List Call → Exec GoError
  | [], err, t => ⟨t, Outcome.returned err⟩
  | record :: rest, err, t =>
    match SetObject record.BucketName record.ObjectKey with
    | none => ⟨t, Outcome.panicked⟩
    | some srcObj =>
      if srcObj.IsValidImage then
        match resizeS3Object w t srcObj with
        | ⟨t1, Outcome.returned err1⟩ => recordsLoop w rest err1 t1
        | ⟨t1, Outcome.exited code⟩ => ⟨t1, Outcome.exited code⟩
        | ⟨t1, Outcome.panicked⟩ => ⟨t1, Outcome.panicked⟩
      else
        recordsLoop w rest err t

/-- Go `ResizeImages`, the Lambda handler; `t` holds the calls the process
made before this invocation. -/
def ResizeImages (w : World) (t : List Call) (s3Event : S3Event) : Exec GoError :=
  recordsLoop w s3Event.Records none t

/-- The calls one preset makes when its resize succeeds: `convert`, opening
the output file, `PutObject`. -/
def presetCalls (srcObj : SrcObject) (config : ResizeConfig) : List Call :=
  [Call.Run (convertArgs config srcObj),
   Call.Open (srcObj.GetThumbTempFileName config.Name),
   Call.PutObject config.DestBucket (srcObj.GetDestObjectKey config.Name)]

/-- The calls that fetch one source object: `GetObject`, `os.Create`,
`io.Copy`. -/
def fetchCalls (srcObj : SrcObject) : List Call :=
  [Call.GetObject srcObj.Bucket srcObj.Key,
   Call.Create srcObj.TempfileName,
   Call.Copy srcObj.TempfileName]

/-- A world in which every call succeeds except the `convert` run whose
argument list is `args`. -/
def failRun (args : List GoString) : World :=
  fun _ c => decide (c ≠ Call.Run args)

/-- A world in which every call succeeds except the `PutObject` of the key
`key`. -/
def failPut (key : GoString) : World :=
  fun _ c =>
    match c with
    | Call.PutObject _ k => decide (k ≠ key)
    | _ => true

/-- A world in which every call succeeds except `GetObject`. -/
def failGet : World :=
  fun _ c =>
    match c with
    | Call.GetObject _ _ => false
    | _ => true

/-- The event with the single record (bucket `src`, key `x.jpg`). -/
def xjpgEvent : S3Event :=
  { Records := [{ BucketName := "src".toList, ObjectKey := "x.jpg".toList }] }

/-- The first preset of the registry. -/
def thumbnailPreset : ResizeConfig :=
  { Name := "thumbnail".toList, Width := 200, Height := 200, Quality := 95 }

/-- The source object of the key `x.jpg` in the bucket `src`. -/
def xjpg : SrcObject :=
  { Key := "x.jpg".toList
    Bucket := "src".toList
    TempfileName := "/tmp/x.jpg".toList
    Extension := ".jpg".toList
    BasePath := "x/".toList
    FileName := "x".toList }

/-! ## Slices -/

theorem slice_zero_sub (s : GoString) (n m : Nat) (h1 : m ≤ n) (h2 : n ≤ s.length) :
    slice s 0 ((n : Int) - (m : Int)) = some (s.take (n - m)) := by
  unfold slice
  have e : ((n : Int) - (m : Int)).toNat = n - m := by omega
  rw [if_pos (by omega), e]
  simp

theorem slice_neg (s : GoString) (hi : Int) (h : hi < 0) : slice s 0 hi = none := by
  unfold slice
  rw [if_neg (by omega)]

/-! ## `filepath.Ext` -/

theorem extLoop_of_dot (r1 r2 acc : GoString) (hd : '.' ∉ r1) (hs : '/' ∉ r1) :
    extLoop (r1 ++ '.' :: r2) acc = '.' :: (r1.reverse ++ acc) := by
  induction r1 generalizing acc with
  | nil => simp [extLoop, IsPathSeparator]
  | cons c r1 ih =>
    have hc1 : c ≠ '.' := fun h => hd (by simp [h])
    have hc2 : c ≠ '/' := fun h => hs (by simp [h])
    have hd' : '.' ∉ r1 := fun h => hd (by simp [h])
    have hs' : '/' ∉ r1 := fun h => hs (by simp [h])
    simp [extLoop, IsPathSeparator, hc1, hc2, ih _ hd' hs']

theorem extLoop_no_dot (rev acc : GoString) (hd : '.' ∉ rev) : extLoop rev acc = [] := by
  induction rev generalizing acc with
  | nil => simp [extLoop]
  | cons c rev ih =>
    have hc1 : c ≠ '.' := fun h => hd (by simp [h])
    have hd' : '.' ∉ rev := fun h => hd (by simp [h])
    by_cases hc : IsPathSeparator c = true <;> simp [extLoop, hc, hc1, ih _ hd']

theorem extLoop_shape (rev acc : GoString) :
    extLoop rev acc = [] ∨
      ∃ r1 r2, rev = r1 ++ '.' :: r2 ∧ '.' ∉ r1 ∧ '/' ∉ r1 ∧
        extLoop rev acc = '.' :: (r1.reverse ++ acc) := by
  induction rev generalizing acc with
  | nil => left; simp [extLoop]
  | cons c rev ih =>
    by_cases hc : IsPathSeparator c = true
    · left; simp [extLoop, hc]
    · by_cases hdot : c = '.'
      · right
        refine ⟨[], rev, by simp [hdot], by simp, by simp, ?_⟩
        subst hdot
        simp [extLoop, IsPathSeparator]
      · rcases ih (c :: acc) with h | ⟨r1, r2, h1, h2, h3, h4⟩
        · left; simp [extLoop, hc, hdot, h]
        · right
          have hc2 : c ≠ '/' := by
            intro h; apply hc; simp [IsPathSeparator, h]
          refine ⟨c :: r1, r2, by simp [h1], ?_, ?_, ?_⟩
          · simp [h2]; exact fun h => hdot h.symm
          · simp [h3]; exact fun h => hc2 h.symm
          · simp [extLoop, hc, hdot, h4]

/-- `Ext` of a string that ends with `.` followed by bytes that are neither
`.` nor `/` is that ending. -/
theorem Ext_append_dot (n x : GoString) (hd : '.' ∉ x) (hs : '/' ∉ x) :
    Ext (n ++ '.' :: x) = '.' :: x := by
  unfold Ext
  have h := extLoop_of_dot x.reverse n.reverse [] (by simpa using hd) (by simpa using hs)
  simpa using h

/-- `Ext` of a string without `.` is empty. -/
theorem Ext_no_dot (s : GoString) (hd : '.' ∉ s) : Ext s = [] := by
  unfold Ext
  exact extLoop_no_dot _ _ (by simpa using hd)

/-- The result of `Ext` is empty, or it is a `.` followed by bytes that are
neither `.` nor `/`, and it is an ending of the argument. -/
theorem Ext_shape (s : GoString) :
    (Ext s = [] ∨ ∃ x, Ext s = '.' :: x ∧ '.' ∉ x ∧ '/' ∉ x) ∧ ∃ n, s = n ++ Ext s := by
  unfold Ext
  rcases extLoop_shape s.reverse [] with h | ⟨r1, r2, h1, h2, h3, h4⟩
  · exact ⟨Or.inl h, s, by simp [h]⟩
  · have hs : s = r2.reverse ++ '.' :: r1.reverse := by
      have := congrArg List.reverse h1
      simpa using this
    refine ⟨Or.inr ⟨r1.reverse, by simpa using h4, by simpa using h2, by simpa using h3⟩, r2.reverse, ?_⟩
    rw [h4]; simpa using hs

theorem Ext_length_le (s : GoString) : (Ext s).length ≤ s.length := by
  obtain ⟨n, hn⟩ := (Ext_shape s).2
  have := congrArg List.length hn
  simp at this
  omega

theorem Ext_no_slash (s : GoString) : '/' ∉ Ext s := by
  rcases (Ext_shape s).1 with h | ⟨x, h1, _, h3⟩
  · simp [h]
  · rw [h1]; simp [h3]

theorem extLoop_ne_nil (rev acc : GoString) (hs : '/' ∉ rev) (hd : '.' ∈ rev) :
    extLoop rev acc ≠ [] := by
  induction rev generalizing acc with
  | nil => simp at hd
  | cons c rev ih =>
    have hc2 : c ≠ '/' := fun h => hs (by simp [h])
    have hs' : '/' ∉ rev := fun h => hs (by simp [h])
    by_cases hdot : c = '.'
    · simp [extLoop, IsPathSeparator, hc2, hdot]
    · have hd' : '.' ∈ rev := by
        rcases List.mem_cons.1 hd with h | h
        · exact absurd h.symm hdot
        · exact h
      simpa [extLoop, IsPathSeparator, hc2, hdot] using ih (c :: acc) hs' hd'

/-- When `Ext` is empty and the string has no `/`, the string has no `.`. -/
theorem no_dot_of_Ext_nil (s : GoString) (hs : '/' ∉ s) (he : Ext s = []) : '.' ∉ s := by
  intro hd
  exact extLoop_ne_nil s.reverse [] (by simpa using hs) (by simpa using hd) he

/-! ## `filepath.Base` -/

theorem Base_nil : Base [] = ['.'] := by simp [Base]

theorem Base_eq (path : GoString) (h : path ≠ []) :
    Base path = if lastElem path = [] then ['/'] else lastElem path := by
  simp [Base, h, lastElem]

theorem lastElem_length_le (path : GoString) : (lastElem path).length ≤ path.length := by
  unfold lastElem
  rw [List.length_reverse]
  calc (List.takeWhile (fun c => !IsPathSeparator c)
          (List.dropWhile IsPathSeparator path.reverse)).length
      ≤ (List.dropWhile IsPathSeparator path.reverse).length :=
        (List.takeWhile_sublist _).length_le
    _ ≤ path.reverse.length := (List.dropWhile_sublist _).length_le
    _ = path.length := List.length_reverse _

theorem lastElem_no_slash (path : GoString) : '/' ∉ lastElem path := by
  unfold lastElem
  intro h
  have h1 := List.mem_reverse.1 h
  have h2 := List.mem_takeWhile_imp h1
  simp [IsPathSeparator] at h2

theorem Base_length_le (path : GoString) (h : path ≠ []) : (Base path).length ≤ path.length := by
  rw [Base_eq path h]
  split
  · cases path with
    | nil => exact absurd rfl h
    | cons a l => simp
  · exact lastElem_length_le path

/-- A key that is a directory prefix (empty or ending in `/`) followed by a
non-empty segment without `/` has that segment as its last element. -/
theorem lastElem_dir_append (d seg : GoString) (hd : d = [] ∨ d.getLast? = some '/')
    (hne : seg ≠ []) (hs : '/' ∉ seg) : lastElem (d ++ seg) = seg := by
  unfold lastElem
  have hrev : '/' ∉ seg.reverse := by simpa using hs
  have hall : ∀ c ∈ seg.reverse, IsPathSeparator c = false := by
    intro c hc
    simp only [IsPathSeparator, beq_eq_false_iff_ne, ne_eq]
    intro h; exact hrev (h ▸ hc)
  have hne' : seg.reverse ≠ [] := by simpa using hne
  rw [List.reverse_append]
  obtain ⟨c, r, hcr⟩ := List.exists_cons_of_ne_nil hne'
  have hc : IsPathSeparator c = false := hall c (by simp [hcr])
  have h1 : List.dropWhile IsPathSeparator (seg.reverse ++ d.reverse) = seg.reverse ++ d.reverse := by
    rw [hcr]; simp [List.dropWhile, hc]
  rw [h1]
  have h2 : List.takeWhile (fun c => !IsPathSeparator c) (seg.reverse ++ d.reverse) = seg.reverse := by
    rcases hd with hd | hd
    · subst hd
      simp only [List.reverse_nil, List.append_nil]
      apply List.takeWhile_eq_self_iff.2
      intro c hc; simp [hall c hc]
    · obtain ⟨ys, hys⟩ := List.getLast?_eq_some_iff.1 hd
      subst hys
      have hall' : ∀ c ∈ seg.reverse, (fun c => !IsPathSeparator c) c = true := by
        intro c hc; simp [hall c hc]
      rw [List.takeWhile_append_of_pos hall']
      simp [IsPathSeparator]
  rw [h2]; simp

theorem Base_dir_append (d seg : GoString) (hd : d = [] ∨ d.getLast? = some '/')
    (hne : seg ≠ []) (hs : '/' ∉ seg) : Base (d ++ seg) = seg := by
  have hk : d ++ seg ≠ [] := by simp [hne]
  rw [Base_eq _ hk, lastElem_dir_append d seg hd hne hs, if_neg hne]

/-! ## `strings.Split` and `strings.Join` -/

theorem Split_ne_nil (s : GoString) (sep : Char) : Split s sep ≠ [] := by
  induction s with
  | nil => simp [Split]
  | cons c cs ih =>
    unfold Split
    split
    · simp
    · split <;> simp

theorem Join_cons_of_ne_nil (a : GoString) (l : List GoString) (sep : GoString) (h : l ≠ []) :
    Join (a :: l) sep = a ++ sep ++ Join l sep := by
  cases l with
  | nil => exact absurd rfl h
  | cons b rest => simp [Join]

theorem Join_cons_cons_head (c : Char) (p : GoString) (ps : List GoString) (sep : GoString) :
    Join ((c :: p) :: ps) sep = c :: Join (p :: ps) sep := by
  cases ps with
  | nil => simp [Join]
  | cons b rest => simp [Join]

theorem Join_Split (s : GoString) :
    Join (Split s '-') "/".toList = hyphensToSlashes s := by
  induction s with
  | nil => simp [Split, Join, hyphensToSlashes]
  | cons c cs ih =>
    unfold Split
    by_cases hc : c = '-'
    · rw [if_pos hc, Join_cons_of_ne_nil _ _ _ (Split_ne_nil cs '-'), ih]
      simp [hyphensToSlashes, hc]
    · rw [if_neg hc]
      have hne := Split_ne_nil cs '-'
      cases hsp : Split cs '-' with
      | nil => exact absurd hsp hne
      | cons p ps =>
        simp only
        rw [Join_cons_cons_head, ← hsp, ih]
        simp [hyphensToSlashes, hc]

theorem hyphensToSlashes_length (s : GoString) : (hyphensToSlashes s).length = s.length := by
  simp [hyphensToSlashes]

theorem hyphensToSlashes_append (s t : GoString) :
    hyphensToSlashes (s ++ t) = hyphensToSlashes s ++ hyphensToSlashes t := by
  simp [hyphensToSlashes]

/-- On strings without `/`, replacing `-` by `/` loses nothing. -/
theorem hyphensToSlashes_inj (s t : GoString) (hs : '/' ∉ s) (ht : '/' ∉ t)
    (h : hyphensToSlashes s = hyphensToSlashes t) : s = t := by
  induction s generalizing t with
  | nil =>
    cases t with
    | nil => rfl
    | cons b t => simp [hyphensToSlashes] at h
  | cons a s ih =>
    cases t with
    | nil => simp [hyphensToSlashes] at h
    | cons b t =>
      have ha : a ≠ '/' := fun e => hs (by simp [e])
      have hb : b ≠ '/' := fun e => ht (by simp [e])
      have hs' : '/' ∉ s := fun e => hs (by simp [e])
      have ht' : '/' ∉ t := fun e => ht (by simp [e])
      simp only [hyphensToSlashes, List.map_cons, List.cons.injEq] at h
      have hst : s = t := ih t hs' ht' h.2
      have hab : a = b := by
        have h1 := h.1
        by_cases h2 : a = '-' <;> by_cases h3 : b = '-'
        · rw [h2, h3]
        · rw [if_pos h2, if_neg h3] at h1; exact absurd h1.symm hb
        · rw [if_neg h2, if_pos h3] at h1; exact absurd h1 ha
        · rw [if_neg h2, if_neg h3] at h1; exact h1
      rw [hab, hst]

/-! ## `SetObject` -/

/-- The fields `SetObject` computes for a non-empty key: no slice panics. -/
theorem SetObject_of_ne_nil (bucket key : GoString) (h : key ≠ []) :
    SetObject bucket key = some
      { Key := key
        Bucket := bucket
        TempfileName := "/tmp/".toList ++ Base key
        Extension := Ext (Base key)
        BasePath := key.take (key.length - (Base key).length) ++
          hyphensToSlashes ((Base key).take ((Base key).length - (Ext (Base key)).length)) ++
          "/".toList
        FileName := (Base key).take ((Base key).length - (Ext (Base key)).length) } := by
  unfold SetObject
  simp only
  rw [slice_zero_sub (Base key) _ _ (Ext_length_le _) (le_refl _)]
  simp only
  rw [slice_zero_sub key _ _ (Base_length_le key h) (le_refl _)]
  simp only [Join_Split]

/-- The empty key makes the slice `key[0 : len(key)-len(fileNameWithExt)]`
panic: `filepath.Base("")` is `"."`, so the upper bound is `-1`. -/
theorem SetObject_nil (bucket : GoString) : SetObject bucket [] = none := by
  rfl

theorem FileName_append_Extension (b : GoString) :
    b.take (b.length - (Ext b).length) ++ Ext b = b := by
  obtain ⟨n, hn⟩ := (Ext_shape b).2
  have hl : b.length - (Ext b).length = n.length := by
    have := congrArg List.length hn
    simp at this
    omega
  have h2 : (n ++ Ext b).take n.length = n := List.take_left' rfl
  rw [← hn] at h2
  rw [hl, h2]
  exact hn.symm

/-- The extension of `name ++ e` is `e`, for `e` empty (and `name` without
`.`) or `e` a `.` followed by bytes that are neither `.` nor `/`. -/
theorem Ext_name_ext (name e : GoString)
    (he : (e = [] ∧ '.' ∉ name) ∨ ∃ x, e = '.' :: x ∧ '.' ∉ x ∧ '/' ∉ x) :
    Ext (name ++ e) = e := by
  rcases he with ⟨h1, h2⟩ | ⟨x, h1, h2, h3⟩
  · subst h1; simpa using Ext_no_dot name h2
  · subst h1; exact Ext_append_dot name x h2 h3

/-- C1. For a key `d ++ name ++ e` with `d` empty or ending in `/`, `name`
without `/`, `e` an extension (empty with `name` free of `.`, or `.` followed
by bytes other than `.` and `/`) and `name ++ e` non-empty, `SetObject`
succeeds and `BasePath` is `d`, then the `-`-separated segments of `name`
joined by `/`, then `/`; so it starts with `d`, ends with `/`, and is the same
for every bucket. -/
theorem SetObject_BasePath_of_dir_name_ext (b d name e : GoString)
    (hd : d = [] ∨ d.getLast? = some '/')
    (hname : '/' ∉ name)
    (he : (e = [] ∧ '.' ∉ name) ∨ ∃ x, e = '.' :: x ∧ '.' ∉ x ∧ '/' ∉ x)
    (hne : name ++ e ≠ []) :
    ∃ so, SetObject b (d ++ name ++ e) = some so ∧
      so.BasePath = d ++ Join (Split name '-') "/".toList ++ "/".toList ∧
      d <+: so.BasePath ∧
      so.BasePath.getLast? = some '/' ∧
      ∀ b', ∃ so', SetObject b' (d ++ name ++ e) = some so' ∧ so'.BasePath = so.BasePath := by
  have hes : '/' ∉ e := by
    rcases he with ⟨h1, _⟩ | ⟨x, h1, _, h3⟩
    · simp [h1]
    · rw [h1]; simp [h3]
  have hseg : '/' ∉ name ++ e := by
    simp only [List.mem_append, not_or]; exact ⟨hname, hes⟩
  have hkey : d ++ name ++ e ≠ [] := by
    rw [List.append_assoc]; simp only [ne_eq, List.append_eq_nil, not_and]
    intro _; simpa using hne
  have hbase : Base (d ++ name ++ e) = name ++ e := by
    rw [List.append_assoc]; exact Base_dir_append d (name ++ e) hd hne hseg
  have hext : Ext (name ++ e) = e := Ext_name_ext name e he
  have hfile : (name ++ e).take ((name ++ e).length - e.length) = name := by
    have : (name ++ e).length - e.length = name.length := by simp
    rw [this]; exact List.take_left' rfl
  have hdir : (d ++ name ++ e).take ((d ++ name ++ e).length - (name ++ e).length) = d := by
    have : (d ++ name ++ e).length - (name ++ e).length = d.length := by
      simp only [List.length_append]; omega
    rw [this, List.append_assoc]; exact List.take_left' rfl
  have hso : ∀ b', SetObject b' (d ++ name ++ e) = some
      { Key := d ++ name ++ e
        Bucket := b'
        TempfileName := "/tmp/".toList ++ (name ++ e)
        Extension := e
        BasePath := d ++ Join (Split name '-') "/".toList ++ "/".toList
        FileName := name } := by
    intro b'
    rw [SetObject_of_ne_nil b' _ hkey, hbase, hext, hfile, hdir, Join_Split]
  refine ⟨_, hso b, rfl, ?_, ?_, ?_⟩
  · simp only [List.append_assoc]; exact List.prefix_append _ _
  · simp
  · intro b'; exact ⟨_, hso b', rfl⟩

/-- C1, at the keys `p/images/f04902b4-ee4a-4f97-8c3b-bc1632f4ef6b.jpg` and
`a/b/c.png`: the destination prefixes are
`p/images/f04902b4/ee4a/4f97/8c3b/bc1632f4ef6b/` and `a/b/c/`. -/
theorem SetObject_BasePath_of_dir_name_ext_witness :
    (SetObject "hngry-original-images".toList
        "p/images/f04902b4-ee4a-4f97-8c3b-bc1632f4ef6b.jpg".toList).map SrcObject.BasePath
      = some "p/images/f04902b4/ee4a/4f97/8c3b/bc1632f4ef6b/".toList ∧
    (SetObject "hngry-original-images".toList "a/b/c.png".toList).map SrcObject.BasePath
      = some "a/b/c/".toList := by
  constructor
  · obtain ⟨so, h1, h2, _⟩ := SetObject_BasePath_of_dir_name_ext
      "hngry-original-images".toList "p/images/".toList
      "f04902b4-ee4a-4f97-8c3b-bc1632f4ef6b".toList ".jpg".toList
      (Or.inr (by decide)) (by decide) (Or.inr ⟨"jpg".toList, by decide⟩) (by decide)
    have h3 : SetObject "hngry-original-images".toList
        "p/images/f04902b4-ee4a-4f97-8c3b-bc1632f4ef6b.jpg".toList = some so := h1
    rw [h3, Option.map_some', h2]
    decide
  · obtain ⟨so, h1, h2, _⟩ := SetObject_BasePath_of_dir_name_ext
      "hngry-original-images".toList "a/b/".toList "c".toList ".png".toList
      (Or.inr (by decide)) (by decide) (Or.inr ⟨"png".toList, by decide⟩) (by decide)
    have h3 : SetObject "hngry-original-images".toList "a/b/c.png".toList = some so := h1
    rw [h3, Option.map_some', h2]
    decide

/-! ## Destination keys -/

theorem trailingSegment_append_slash (x t : GoString) (ht : '/' ∉ t) :
    trailingSegment (x ++ '/' :: t) = t := by
  unfold trailingSegment
  have hall : ∀ c ∈ t.reverse, (fun c => c != '/') c = true := by
    intro c hc
    simp only [bne_iff_ne, ne_eq]
    intro h; exact ht (h ▸ List.mem_reverse.1 hc)
  rw [List.reverse_append, List.reverse_cons, List.append_assoc,
    List.takeWhile_append_of_pos hall]
  simp

/-- Two strings cut at a separator that does not occur after the cut are
equal only if both parts are. -/
theorem append_sep_inj (c : Char) (a1 t1 a2 t2 : GoString) (h1 : c ∉ t1) (h2 : c ∉ t2)
    (h : a1 ++ c :: t1 = a2 ++ c :: t2) : a1 = a2 ∧ t1 = t2 := by
  induction a1 generalizing a2 with
  | nil =>
    cases a2 with
    | nil => simpa using h
    | cons d a2 =>
      simp only [List.nil_append, List.cons_append, List.cons.injEq] at h
      exact absurd (h.2 ▸ (by simp : c ∈ a2 ++ c :: t2)) h1
  | cons d a1 ih =>
    cases a2 with
    | nil =>
      simp only [List.nil_append, List.cons_append, List.cons.injEq] at h
      exact absurd (h.2 ▸ (by simp : c ∈ a1 ++ c :: t1)) h2
    | cons d2 a2 =>
      simp only [List.cons_append, List.cons.injEq] at h
      obtain ⟨e1, e2⟩ := ih a2 h.2
      exact ⟨by rw [h.1, e1], e2⟩

theorem extLoop_append_slash (r r2 acc : GoString) :
    extLoop (r ++ '/' :: r2) acc = extLoop r acc := by
  induction r generalizing acc with
  | nil => simp [extLoop, IsPathSeparator]
  | cons c r ih =>
    by_cases hc : IsPathSeparator c = true
    · simp [extLoop, hc]
    · by_cases hdot : c = '.'
      · simp [extLoop, hc, hdot]
      · simp [extLoop, hc, hdot, ih]

/-- `Ext` only looks at what follows the last `/`. -/
theorem Ext_append_slash (x t : GoString) : Ext (x ++ '/' :: t) = Ext t := by
  unfold Ext
  have := extLoop_append_slash t.reverse x.reverse []
  simpa using this

/-- The extension of the last element of a non-empty key is empty only if
that element has no `.`. -/
theorem no_dot_Base_of_Ext_nil (key : GoString) (hk : key ≠ [])
    (he : Ext (Base key) = []) : '.' ∉ Base key := by
  rw [Base_eq key hk] at he ⊢
  split
  · decide
  · rename_i hl
    rw [if_neg hl] at he
    exact no_dot_of_Ext_nil _ (lastElem_no_slash key) he

/-- The shape of the pair (`FileName`, `Extension`) of a non-empty key. -/
theorem FileName_Extension_shape (key : GoString) (hk : key ≠ []) :
    (Ext (Base key) = [] ∧
        '.' ∉ (Base key).take ((Base key).length - (Ext (Base key)).length)) ∨
      ∃ x, Ext (Base key) = '.' :: x ∧ '.' ∉ x ∧ '/' ∉ x := by
  rcases (Ext_shape (Base key)).1 with h | h
  · left
    refine ⟨h, fun hm => ?_⟩
    exact no_dot_Base_of_Ext_nil key hk h (List.mem_of_mem_take hm)
  · right; exact h

/-- The local output path determines file name, preset name and extension,
for preset names without `_` and `.`. -/
theorem tempName_inj (F1 p1 E1 F2 p2 E2 : GoString)
    (hE1 : (E1 = [] ∧ '.' ∉ F1) ∨ ∃ x, E1 = '.' :: x ∧ '.' ∉ x ∧ '/' ∉ x)
    (hE2 : (E2 = [] ∧ '.' ∉ F2) ∨ ∃ x, E2 = '.' :: x ∧ '.' ∉ x ∧ '/' ∉ x)
    (hp1 : '_' ∉ p1 ∧ '.' ∉ p1) (hp2 : '_' ∉ p2 ∧ '.' ∉ p2)
    (h : F1 ++ '_' :: p1 ++ E1 = F2 ++ '_' :: p2 ++ E2) :
    F1 = F2 ∧ p1 = p2 ∧ E1 = E2 := by
  have key : ∀ (F p E : GoString),
      ((E = [] ∧ '.' ∉ F) ∨ ∃ x, E = '.' :: x ∧ '.' ∉ x ∧ '/' ∉ x) →
      '.' ∉ p → Ext (F ++ '_' :: p ++ E) = E := by
    intro F p E hE hp
    apply Ext_name_ext
    rcases hE with ⟨e1, e2⟩ | hx
    · left
      refine ⟨e1, ?_⟩
      simp only [List.mem_append, List.mem_cons, not_or]
      exact ⟨e2, by decide, hp⟩
    · right; exact hx
  have hE : E1 = E2 := by
    rw [← key F1 p1 E1 hE1 hp1.2, ← key F2 p2 E2 hE2 hp2.2, h]
  subst hE
  have h3 := List.append_cancel_right h
  obtain ⟨e1, e2⟩ := append_sep_inj '_' F1 p1 F2 p2 hp1.1 hp2.1 h3
  exact ⟨e1, e2, rfl⟩

/-- The destination key determines destination prefix, preset name and
extension, for preset names without `/` and `.`. -/
theorem destKey_inj (X1 p1 E1 X2 p2 E2 : GoString)
    (hE1 : E1 = [] ∨ ∃ x, E1 = '.' :: x ∧ '.' ∉ x ∧ '/' ∉ x)
    (hE2 : E2 = [] ∨ ∃ x, E2 = '.' :: x ∧ '.' ∉ x ∧ '/' ∉ x)
    (hp1 : '/' ∉ p1 ∧ '.' ∉ p1) (hp2 : '/' ∉ p2 ∧ '.' ∉ p2)
    (h : X1 ++ '/' :: p1 ++ E1 = X2 ++ '/' :: p2 ++ E2) :
    X1 = X2 ∧ p1 = p2 ∧ E1 = E2 := by
  have key : ∀ (X p E : GoString),
      (E = [] ∨ ∃ x, E = '.' :: x ∧ '.' ∉ x ∧ '/' ∉ x) →
      '.' ∉ p → Ext (X ++ '/' :: p ++ E) = E := by
    intro X p E hE hp
    rw [List.append_assoc, List.cons_append, Ext_append_slash]
    apply Ext_name_ext
    rcases hE with e1 | hx
    · left; exact ⟨e1, hp⟩
    · right; exact hx
  have hE : E1 = E2 := by
    rw [← key X1 p1 E1 hE1 hp1.2, ← key X2 p2 E2 hE2 hp2.2, h]
  subst hE
  have h3 := List.append_cancel_right h
  obtain ⟨e1, e2⟩ := append_sep_inj '/' X1 p1 X2 p2 hp1.1 hp2.1 h3
  exact ⟨e1, e2, rfl⟩

/-- The names of the registry contain none of `/`, `.`, `_`. -/
theorem registry_names_clean :
    ∀ p ∈ ResizeConfigs.map ResizeConfig.Name, '/' ∉ p ∧ '.' ∉ p ∧ '_' ∉ p := by
  decide

/-- A non-empty key that does not end in `/` is its directory part followed
by its last element. -/
theorem take_append_Base (key : GoString) (hk : key ≠ []) (hl : key.getLast? ≠ some '/') :
    key.take (key.length - (Base key).length) ++ Base key = key := by
  have hrev : key.reverse ≠ [] := by simpa using hk
  obtain ⟨c, r, hcr⟩ := List.exists_cons_of_ne_nil hrev
  have hc : IsPathSeparator c = false := by
    simp only [IsPathSeparator, beq_eq_false_iff_ne, ne_eq]
    intro h
    apply hl
    rw [← List.head?_reverse, hcr, h]; rfl
  have hlast : lastElem key =
      (List.takeWhile (fun c => !IsPathSeparator c) key.reverse).reverse := by
    unfold lastElem
    rw [hcr]; simp [List.dropWhile, hc]
  have hne : lastElem key ≠ [] := by
    rw [hlast, hcr]; simp [List.takeWhile, hc]
  have hdecomp : key =
      (List.dropWhile (fun c => !IsPathSeparator c) key.reverse).reverse ++ lastElem key := by
    rw [hlast, ← List.reverse_append, List.takeWhile_append_dropWhile, List.reverse_reverse]
  have hbase : Base key = lastElem key := by
    rw [Base_eq key hk, if_neg hne]
  rw [hbase]
  have hlen : key.length - (lastElem key).length =
      (List.dropWhile (fun c => !IsPathSeparator c) key.reverse).reverse.length := by
    have := congrArg List.length hdecomp
    rw [List.length_append] at this
    omega
  rw [hlen]
  have h2 : (List.take
      (List.dropWhile (fun c => !IsPathSeparator c) key.reverse).reverse.length
      ((List.dropWhile (fun c => !IsPathSeparator c) key.reverse).reverse ++ lastElem key)) =
      (List.dropWhile (fun c => !IsPathSeparator c) key.reverse).reverse := List.take_left' rfl
  rw [← hdecomp] at h2
  rw [h2]
  exact hdecomp.symm

theorem hyphensToSlashes_idem (s : GoString) :
    hyphensToSlashes (hyphensToSlashes s) = hyphensToSlashes s := by
  unfold hyphensToSlashes
  rw [List.map_map]
  apply List.map_congr_left
  intro c _
  by_cases h : c = '-' <;> simp [h]

/-- C2. `SetObject` is not total: on the empty key the slice
`key[0 : len(key)-len(fileNameWithExt)]` has upper bound `0 - len(".") = -1`
and panics, for every bucket. -/
theorem SetObject_empty_key_panics (bucket : GoString) :
    Base [] = ['.'] ∧
    slice [] 0 ((([] : GoString).length : Int) - ((Base []).length : Int)) = none ∧
    SetObject bucket [] = none := by
  refine ⟨by decide, by decide, rfl⟩

/-- C3. For a non-empty key and a preset name without `/`, `GetDestObjectKey`
after `SetObject` is `BasePath ++ presetName ++ Extension`, and the trailing
segment of that key is `presetName ++ Extension`. -/
theorem GetDestObjectKey_trailingSegment (bucket key presetName : GoString)
    (hk : key ≠ []) (hp : '/' ∉ presetName) :
    ∃ so, SetObject bucket key = some so ∧
      so.GetDestObjectKey presetName = so.BasePath ++ presetName ++ so.Extension ∧
      trailingSegment (so.GetDestObjectKey presetName) = presetName ++ so.Extension := by
  refine ⟨_, SetObject_of_ne_nil bucket key hk, rfl, ?_⟩
  simp only [SrcObject.GetDestObjectKey]
  have hs : '/' ∉ presetName ++ Ext (Base key) := by
    simp only [List.mem_append, not_or]; exact ⟨hp, Ext_no_slash _⟩
  have := trailingSegment_append_slash
    (List.take (key.length - (Base key).length) key ++
      hyphensToSlashes (List.take ((Base key).length - (Ext (Base key)).length) (Base key)))
    (presetName ++ Ext (Base key)) hs
  simpa using this

/-- C3, at the key `p/images/bbq.jpg` and the preset name `thumbnail-2x`. -/
theorem GetDestObjectKey_trailingSegment_witness :
    ∃ so, SetObject "hngry-original-images".toList "p/images/bbq.jpg".toList = some so ∧
      so.GetDestObjectKey "thumbnail-2x".toList =
        so.BasePath ++ "thumbnail-2x".toList ++ so.Extension ∧
      trailingSegment (so.GetDestObjectKey "thumbnail-2x".toList) =
        "thumbnail-2x".toList ++ so.Extension :=
  GetDestObjectKey_trailingSegment "hngry-original-images".toList "p/images/bbq.jpg".toList
    "thumbnail-2x".toList (by decide) (by decide)

/-- C4. For the key `p/images/f04902b4-ee4a-4f97-8c3b-bc1632f4ef6b.jpg` and any
bucket, the registry yields exactly four upload targets, in registry order,
all in the bucket `hngry-images`. -/
theorem uploadTargets_example (bucket : GoString) :
    (SetObject bucket "p/images/f04902b4-ee4a-4f97-8c3b-bc1632f4ef6b.jpg".toList).map
        uploadTargets =
      some
        [("hngry-images".toList,
            "p/images/f04902b4/ee4a/4f97/8c3b/bc1632f4ef6b/thumbnail.jpg".toList),
         ("hngry-images".toList,
            "p/images/f04902b4/ee4a/4f97/8c3b/bc1632f4ef6b/thumbnail-2x.jpg".toList),
         ("hngry-images".toList,
            "p/images/f04902b4/ee4a/4f97/8c3b/bc1632f4ef6b/gallery.jpg".toList),
         ("hngry-images".toList,
            "p/images/f04902b4/ee4a/4f97/8c3b/bc1632f4ef6b/gallery-2x.jpg".toList)] := by
  rw [SetObject_of_ne_nil bucket _ (by decide)]
  simp only [Option.map_some', uploadTargets, SrcObject.GetDestObjectKey]
  decide

/-- C10. The registry is the ordered list thumbnail (200x200, q95),
thumbnail-2x (400x400, q80), gallery (600x600, q80), gallery-2x (1024x1024,
q75); its names are pairwise different and contain neither `/` nor `.`, and
every width and height is positive and every quality lies in `[0,100]`. -/
theorem ResizeConfigs_contents :
    ResizeConfigs =
      [{ Name := "thumbnail".toList, Width := 200, Height := 200, Quality := 95 },
       { Name := "thumbnail-2x".toList, Width := 400, Height := 400, Quality := 80 },
       { Name := "gallery".toList, Width := 600, Height := 600, Quality := 80 },
       { Name := "gallery-2x".toList, Width := 1024, Height := 1024, Quality := 75 }] ∧
    (ResizeConfigs.map ResizeConfig.Name).Nodup ∧
    ∀ c ∈ ResizeConfigs,
      '/' ∉ c.Name ∧ '.' ∉ c.Name ∧ 0 < c.Width ∧ 0 < c.Height ∧
        0 ≤ c.Quality ∧ c.Quality ≤ 100 := by
  refine ⟨rfl, by decide, by decide⟩

/-! ## Local output paths and destination keys of different pairs -/

/-- C8 (counterexample). The keys `a/x.jpg` and `b/x.jpg` differ, yet with the
registry preset `thumbnail` both get the local output path
`/tmp/x_thumbnail.jpg`. -/
theorem GetThumbTempFileName_collision :
    "a/x.jpg".toList ≠ "b/x.jpg".toList ∧
    "thumbnail".toList ∈ ResizeConfigs.map ResizeConfig.Name ∧
    (SetObject "src".toList "a/x.jpg".toList).map
        (fun so => so.GetThumbTempFileName "thumbnail".toList) =
      some "/tmp/x_thumbnail.jpg".toList ∧
    (SetObject "src".toList "b/x.jpg".toList).map
        (fun so => so.GetThumbTempFileName "thumbnail".toList) =
      some "/tmp/x_thumbnail.jpg".toList := by
  refine ⟨by decide, by decide, by decide, by decide⟩

/-- C8 (amended). `GetThumbTempFileName p` is `/tmp/` ++ `FileName` ++ `_` ++
`p` ++ `Extension`, and for two pairs (non-empty key, registry preset) the
local output paths are equal exactly when the presets are equal and the keys
have the same last path element (`filepath.Base`); so pairs that differ in the
preset or in the last path element of the key get different paths. -/
theorem GetThumbTempFileName_eq_iff (b1 k1 p1 b2 k2 p2 : GoString)
    (hk1 : k1 ≠ []) (hk2 : k2 ≠ [])
    (hp1 : p1 ∈ ResizeConfigs.map ResizeConfig.Name)
    (hp2 : p2 ∈ ResizeConfigs.map ResizeConfig.Name) :
    ∃ so1 so2, SetObject b1 k1 = some so1 ∧ SetObject b2 k2 = some so2 ∧
      so1.GetThumbTempFileName p1 =
        "/tmp/".toList ++ so1.FileName ++ "_".toList ++ p1 ++ so1.Extension ∧
      so2.GetThumbTempFileName p2 =
        "/tmp/".toList ++ so2.FileName ++ "_".toList ++ p2 ++ so2.Extension ∧
      (so1.GetThumbTempFileName p1 = so2.GetThumbTempFileName p2 ↔
        Base k1 = Base k2 ∧ p1 = p2) := by
  refine ⟨_, _, SetObject_of_ne_nil b1 k1 hk1, SetObject_of_ne_nil b2 k2 hk2, rfl, rfl, ?_⟩
  simp only [SrcObject.GetThumbTempFileName]
  constructor
  · intro h
    have hc1 := registry_names_clean p1 hp1
    have hc2 := registry_names_clean p2 hp2
    have h2 : (Base k1).take ((Base k1).length - (Ext (Base k1)).length) ++ '_' :: p1 ++
          Ext (Base k1) =
        (Base k2).take ((Base k2).length - (Ext (Base k2)).length) ++ '_' :: p2 ++
          Ext (Base k2) := by
      have h3 : "/tmp/".toList ++ ((Base k1).take ((Base k1).length - (Ext (Base k1)).length) ++
            '_' :: p1 ++ Ext (Base k1)) =
          "/tmp/".toList ++ ((Base k2).take ((Base k2).length - (Ext (Base k2)).length) ++
            '_' :: p2 ++ Ext (Base k2)) := by
        simpa using h
      exact List.append_cancel_left h3
    obtain ⟨e1, e2, e3⟩ := tempName_inj _ _ _ _ _ _
      (FileName_Extension_shape k1 hk1) (FileName_Extension_shape k2 hk2)
      ⟨hc1.2.2, hc1.2.1⟩ ⟨hc2.2.2, hc2.2.1⟩ h2
    refine ⟨?_, e2⟩
    rw [← FileName_append_Extension (Base k1), ← FileName_append_Extension (Base k2), e1, e3]
  · rintro ⟨e1, e2⟩
    rw [e1, e2]

/-- C8 (amended), at the keys `a/x.jpg` and `b/y.jpg` with the presets
`thumbnail` and `gallery`. -/
theorem GetThumbTempFileName_eq_iff_witness :
    ∃ so1 so2, SetObject "src".toList "a/x.jpg".toList = some so1 ∧
      SetObject "src".toList "b/y.jpg".toList = some so2 ∧
      so1.GetThumbTempFileName "thumbnail".toList =
        "/tmp/".toList ++ so1.FileName ++ "_".toList ++ "thumbnail".toList ++ so1.Extension ∧
      so2.GetThumbTempFileName "gallery".toList =
        "/tmp/".toList ++ so2.FileName ++ "_".toList ++ "gallery".toList ++ so2.Extension ∧
      (so1.GetThumbTempFileName "thumbnail".toList = so2.GetThumbTempFileName "gallery".toList ↔
        Base "a/x.jpg".toList = Base "b/y.jpg".toList ∧
          "thumbnail".toList = "gallery".toList) :=
  GetThumbTempFileName_eq_iff "src".toList "a/x.jpg".toList "thumbnail".toList
    "src".toList "b/y.jpg".toList "gallery".toList
    (by decide) (by decide) (by decide) (by decide)

/-- C9 (counterexample). The keys `a-b.jpg` and `a/b.jpg` differ, yet with the
registry preset `thumbnail` both get the destination key
`a/b/thumbnail.jpg`. -/
theorem GetDestObjectKey_collision :
    "a-b.jpg".toList ≠ "a/b.jpg".toList ∧
    "thumbnail".toList ∈ ResizeConfigs.map ResizeConfig.Name ∧
    (SetObject "src".toList "a-b.jpg".toList).map
        (fun so => so.GetDestObjectKey "thumbnail".toList) =
      some "a/b/thumbnail.jpg".toList ∧
    (SetObject "src".toList "a/b.jpg".toList).map
        (fun so => so.GetDestObjectKey "thumbnail".toList) =
      some "a/b/thumbnail.jpg".toList := by
  refine ⟨by decide, by decide, by decide, by decide⟩

/-- C9 (amended). After `SetObject`, the destination key does not depend on
the bucket; for two pairs (non-empty key, registry preset) the destination
keys are equal exactly when the presets, the destination prefixes `BasePath`
and the extensions are equal; and when neither key ends in `/`, equal
destination keys force equal presets and keys that agree once every `-` is
replaced by `/`. -/
theorem GetDestObjectKey_eq_iff (b1 k1 p1 b2 k2 p2 : GoString)
    (hk1 : k1 ≠ []) (hk2 : k2 ≠ [])
    (hp1 : p1 ∈ ResizeConfigs.map ResizeConfig.Name)
    (hp2 : p2 ∈ ResizeConfigs.map ResizeConfig.Name) :
    ∃ so1 so2, SetObject b1 k1 = some so1 ∧ SetObject b2 k2 = some so2 ∧
      (k1 = k2 → p1 = p2 → so1.GetDestObjectKey p1 = so2.GetDestObjectKey p2) ∧
      (so1.GetDestObjectKey p1 = so2.GetDestObjectKey p2 ↔
        p1 = p2 ∧ so1.BasePath = so2.BasePath ∧ so1.Extension = so2.Extension) ∧
      (k1.getLast? ≠ some '/' → k2.getLast? ≠ some '/' →
        so1.GetDestObjectKey p1 = so2.GetDestObjectKey p2 →
        p1 = p2 ∧ hyphensToSlashes k1 = hyphensToSlashes k2) := by
  refine ⟨_, _, SetObject_of_ne_nil b1 k1 hk1, SetObject_of_ne_nil b2 k2 hk2, ?_, ?_, ?_⟩
  · intro e1 e2
    subst e1 e2
    rfl
  all_goals simp only [SrcObject.GetDestObjectKey]
  all_goals
    have hc1 := registry_names_clean p1 hp1
    have hc2 := registry_names_clean p2 hp2
    have hinj : ∀ (X1 X2 : GoString),
        X1 ++ "/".toList ++ p1 ++ Ext (Base k1) = X2 ++ "/".toList ++ p2 ++ Ext (Base k2) →
        X1 = X2 ∧ p1 = p2 ∧ Ext (Base k1) = Ext (Base k2) := by
      intro X1 X2 h
      apply destKey_inj X1 p1 _ X2 p2 _ (Ext_shape (Base k1)).1 (Ext_shape (Base k2)).1
        ⟨hc1.1, hc1.2.1⟩ ⟨hc2.1, hc2.2.1⟩
      simpa using h
  · constructor
    · intro h
      obtain ⟨e1, e2, e3⟩ := hinj _ _ h
      exact ⟨e2, by rw [e1], e3⟩
    · rintro ⟨e1, e2, e3⟩
      rw [e1, e2, e3]
  · intro hl1 hl2 h
    obtain ⟨e1, e2, e3⟩ := hinj _ _ h
    refine ⟨e2, ?_⟩
    have d1 := take_append_Base k1 hk1 hl1
    have d2 := take_append_Base k2 hk2 hl2
    have f1 := FileName_append_Extension (Base k1)
    have f2 := FileName_append_Extension (Base k2)
    have g1 : hyphensToSlashes k1 =
        hyphensToSlashes (k1.take (k1.length - (Base k1).length) ++
          hyphensToSlashes ((Base k1).take ((Base k1).length - (Ext (Base k1)).length))) ++
        hyphensToSlashes (Ext (Base k1)) := by
      rw [hyphensToSlashes_append, hyphensToSlashes_idem, List.append_assoc,
        ← hyphensToSlashes_append, f1, ← hyphensToSlashes_append, d1]
    have g2 : hyphensToSlashes k2 =
        hyphensToSlashes (k2.take (k2.length - (Base k2).length) ++
          hyphensToSlashes ((Base k2).take ((Base k2).length - (Ext (Base k2)).length))) ++
        hyphensToSlashes (Ext (Base k2)) := by
      rw [hyphensToSlashes_append, hyphensToSlashes_idem, List.append_assoc,
        ← hyphensToSlashes_append, f2, ← hyphensToSlashes_append, d2]
    rw [g1, g2, e1, e3]

/-- C9 (amended), at the keys `p/a-b.jpg` and `p/c.png` with the presets
`thumbnail` and `gallery`. -/
theorem GetDestObjectKey_eq_iff_witness :
    ∃ so1 so2, SetObject "one".toList "p/a-b.jpg".toList = some so1 ∧
      SetObject "two".toList "p/c.png".toList = some so2 ∧
      ("p/a-b.jpg".toList = "p/c.png".toList → "thumbnail".toList = "gallery".toList →
        so1.GetDestObjectKey "thumbnail".toList = so2.GetDestObjectKey "gallery".toList) ∧
      (so1.GetDestObjectKey "thumbnail".toList = so2.GetDestObjectKey "gallery".toList ↔
        "thumbnail".toList = "gallery".toList ∧ so1.BasePath = so2.BasePath ∧
          so1.Extension = so2.Extension) ∧
      ("p/a-b.jpg".toList.getLast? ≠ some '/' → "p/c.png".toList.getLast? ≠ some '/' →
        so1.GetDestObjectKey "thumbnail".toList = so2.GetDestObjectKey "gallery".toList →
        "thumbnail".toList = "gallery".toList ∧
          hyphensToSlashes "p/a-b.jpg".toList = hyphensToSlashes "p/c.png".toList) :=
  GetDestObjectKey_eq_iff "one".toList "p/a-b.jpg".toList "thumbnail".toList
    "two".toList "p/c.png".toList "gallery".toList
    (by decide) (by decide) (by decide) (by decide)

/-! ## The pipeline: `createThumbnail`, `resizeS3Object`, `ResizeImages` -/

theorem uploadFileToS3_of_open (w : World) (t : List Call) (filename bucketName objKey : GoString)
    (ho : w t (Call.Open filename) = true) :
    (uploadFileToS3 w t filename bucketName objKey).trace =
        t ++ [Call.Open filename, Call.PutObject bucketName objKey] ∧
      ∃ err, (uploadFileToS3 w t filename bucketName objKey).out = Outcome.returned err := by
  unfold uploadFileToS3
  rw [if_pos ho]
  by_cases hp : w (t ++ [Call.Open filename]) (Call.PutObject bucketName objKey) = true
  · simp [hp]
  · simp [hp]

theorem createThumbnail_of_run_open (w : World) (t : List Call) (config : ResizeConfig)
    (srcObj : SrcObject)
    (hw : ∀ h c, (∀ b k, c ≠ Call.PutObject b k) → w h c = true) :
    (createThumbnail w t config srcObj).trace = t ++ presetCalls srcObj config ∧
      ∃ err, (createThumbnail w t config srcObj).out = Outcome.returned err := by
  unfold createThumbnail
  simp only
  rw [if_pos (hw _ _ (by intro b k h; cases h))]
  obtain ⟨h1, h2⟩ := uploadFileToS3_of_open w (t ++ [Call.Run (convertArgs config srcObj)])
    (srcObj.GetThumbTempFileName config.Name) config.DestBucket
    (srcObj.GetDestObjectKey config.Name) (hw _ _ (by intro b k h; cases h))
  refine ⟨?_, h2⟩
  rw [h1]
  simp [presetCalls]

theorem thumbnailLoop_of_run_open (w : World) (srcObj : SrcObject) (configs : List ResizeConfig)
    (t : List Call)
    (hw : ∀ h c, (∀ b k, c ≠ Call.PutObject b k) → w h c = true) :
    thumbnailLoop w srcObj configs t =
      ⟨t ++ configs.flatMap (presetCalls srcObj), Outcome.returned ()⟩ := by
  induction configs generalizing t with
  | nil => simp [thumbnailLoop]
  | cons config rest ih =>
    obtain ⟨h1, err, h2⟩ := createThumbnail_of_run_open w t config srcObj hw
    unfold thumbnailLoop
    cases hc : createThumbnail w t config srcObj with
    | mk t1 o =>
      rw [hc] at h1 h2
      simp only at h1 h2
      subst h2
      simp only
      rw [ih, h1]
      simp

/-- When every call other than `PutObject` succeeds, `resizeS3Object` fetches
the object, makes the three calls of every preset in registry order, and
returns `nil`. -/
theorem resizeS3Object_of_run_open (w : World) (t : List Call) (srcObj : SrcObject)
    (hw : ∀ h c, (∀ b k, c ≠ Call.PutObject b k) → w h c = true) :
    resizeS3Object w t srcObj =
      ⟨t ++ fetchCalls srcObj ++ ResizeConfigs.flatMap (presetCalls srcObj),
        Outcome.returned none⟩ := by
  unfold resizeS3Object
  rw [if_pos (hw _ _ (by intro b k h; cases h))]
  simp only
  rw [if_pos (hw _ _ (by intro b k h; cases h))]
  rw [if_pos (hw _ _ (by intro b k h; cases h))]
  rw [thumbnailLoop_of_run_open w srcObj ResizeConfigs _ hw]
  simp [fetchCalls]

theorem failPut_spec (key : GoString) (h : List Call) (c : Call)
    (hc : ∀ b k, c ≠ Call.PutObject b k) : failPut key h c = true := by
  cases c with
  | PutObject b k => exact absurd rfl (hc b k)
  | _ => rfl

/-- The outcome of `resizeS3Object` is `return nil`, an exit or a panic: it
never returns an error. -/
theorem resizeS3Object_out_cases (w : World) (t : List Call) (srcObj : SrcObject) :
    (resizeS3Object w t srcObj).out = Outcome.returned none ∨
      (∃ code, (resizeS3Object w t srcObj).out = Outcome.exited code) ∨
      (resizeS3Object w t srcObj).out = Outcome.panicked := by
  unfold resizeS3Object
  by_cases h1 : w t (Call.GetObject srcObj.Bucket srcObj.Key) = true
  · rw [if_pos h1]
    simp only
    by_cases h2 : w (t ++ [Call.GetObject srcObj.Bucket srcObj.Key])
        (Call.Create srcObj.TempfileName) = true
    · rw [if_pos h2]
      by_cases h3 : w (t ++ [Call.GetObject srcObj.Bucket srcObj.Key] ++
          [Call.Create srcObj.TempfileName]) (Call.Copy srcObj.TempfileName) = true
      · rw [if_pos h3]
        cases hl : thumbnailLoop w srcObj ResizeConfigs
            (t ++ [Call.GetObject srcObj.Bucket srcObj.Key] ++
              [Call.Create srcObj.TempfileName] ++ [Call.Copy srcObj.TempfileName]) with
        | mk t4 o =>
          cases o with
          | returned a => left; rfl
          | exited code => right; left; exact ⟨code, rfl⟩
          | panicked => right; right; rfl
      · rw [if_neg h3]; right; left; exact ⟨1, rfl⟩
    · rw [if_neg h2]; right; left; exact ⟨1, rfl⟩
  · rw [if_neg h1]; right; left; exact ⟨1, rfl⟩

theorem recordsLoop_out_cases (w : World) (records : List S3EventRecord) (t : List Call) :
    (recordsLoop w records none t).out = Outcome.returned none ∨
      (∃ code, (recordsLoop w records none t).out = Outcome.exited code) ∨
      (recordsLoop w records none t).out = Outcome.panicked := by
  induction records generalizing t with
  | nil => left; rfl
  | cons record rest ih =>
    unfold recordsLoop
    cases hs : SetObject record.BucketName record.ObjectKey with
    | none => right; right; rfl
    | some srcObj =>
      simp only [SrcObject.IsValidImage, if_true]
      have hc := resizeS3Object_out_cases w t srcObj
      cases hr : resizeS3Object w t srcObj with
      | mk t1 o =>
        rw [hr] at hc
        cases o with
        | returned err1 =>
          rcases hc with h | ⟨code, h⟩ | h
          · simp only [Outcome.returned.injEq] at h
            subst h
            exact ih t1
          · cases h
          · cases h
        | exited code => right; left; exact ⟨code, rfl⟩
        | panicked => right; right; rfl

/-- `ResizeImages` never returns a non-nil error: when it returns, it returns
`nil`. -/
theorem ResizeImages_never_returns_error (w : World) (t : List Call) (s3Event : S3Event)
    (e : Call) : (ResizeImages w t s3Event).out ≠ Outcome.returned (some e) := by
  unfold ResizeImages
  rcases recordsLoop_out_cases w s3Event.Records t with h | ⟨code, h⟩ | h <;>
    rw [h] <;> simp

theorem recordsLoop_of_run_open (w : World) (records : List S3EventRecord) (t : List Call)
    (hkeys : ∀ r ∈ records, r.ObjectKey ≠ [])
    (hw : ∀ h c, (∀ b k, c ≠ Call.PutObject b k) → w h c = true) :
    (recordsLoop w records none t).out = Outcome.returned none := by
  induction records generalizing t with
  | nil => rfl
  | cons record rest ih =>
    have hk : record.ObjectKey ≠ [] := hkeys record (by simp)
    have hrest : ∀ r ∈ rest, r.ObjectKey ≠ [] := fun r hr => hkeys r (by simp [hr])
    unfold recordsLoop
    rw [SetObject_of_ne_nil record.BucketName record.ObjectKey hk]
    simp only [SrcObject.IsValidImage, if_true]
    rw [resizeS3Object_of_run_open w t _ hw]
    simp only
    exact ih _ hrest

/-- C5 (counterexample). For the source object of key `x.jpg`, in the world
where exactly the resize of the preset `thumbnail` fails (the fetch and every
step of every other preset succeed), `resizeS3Object` exits with status 1
right after that resize call: no resize and no upload is attempted for any
other preset of the registry. -/
theorem resizeS3Object_resize_failure_aborts :
    SetObject "src".toList "x.jpg".toList = some xjpg ∧
    thumbnailPreset ∈ ResizeConfigs ∧
    (∀ h, failRun (convertArgs thumbnailPreset xjpg) h
      (Call.Run (convertArgs thumbnailPreset xjpg)) = false) ∧
    (∀ h c, c ≠ Call.Run (convertArgs thumbnailPreset xjpg) →
      failRun (convertArgs thumbnailPreset xjpg) h c = true) ∧
    (resizeS3Object (failRun (convertArgs thumbnailPreset xjpg)) [] xjpg).out =
      Outcome.exited 1 ∧
    (resizeS3Object (failRun (convertArgs thumbnailPreset xjpg)) [] xjpg).trace =
      fetchCalls xjpg ++ [Call.Run (convertArgs thumbnailPreset xjpg)] ∧
    ∀ config ∈ ResizeConfigs, config ≠ thumbnailPreset →
      Call.Run (convertArgs config xjpg) ∉
        (resizeS3Object (failRun (convertArgs thumbnailPreset xjpg)) [] xjpg).trace ∧
      Call.PutObject config.DestBucket (xjpg.GetDestObjectKey config.Name) ∉
        (resizeS3Object (failRun (convertArgs thumbnailPreset xjpg)) [] xjpg).trace := by
  refine ⟨by decide, by decide, ?_, ?_, by decide, by decide, by decide⟩
  · intro h; simp [failRun]
  · intro h c hc; simp [failRun, hc]

/-- C5 (amended). When the fetch, every resize and every opening of an output
file succeed, then whichever `PutObject` calls fail (that of a single preset
in particular), `resizeS3Object` makes the resize and upload calls of every
preset of the registry, in registry order, and returns `nil`. -/
theorem resizeS3Object_upload_failure_isolated (w : World) (t : List Call)
    (srcObj : SrcObject)
    (hw : ∀ h c, (∀ b k, c ≠ Call.PutObject b k) → w h c = true) :
    (resizeS3Object w t srcObj).out = Outcome.returned none ∧
    (resizeS3Object w t srcObj).trace =
      t ++ fetchCalls srcObj ++ ResizeConfigs.flatMap (presetCalls srcObj) ∧
    ∀ config ∈ ResizeConfigs,
      Call.Run (convertArgs config srcObj) ∈
        (resizeS3Object w t srcObj).trace.drop t.length ∧
      Call.PutObject config.DestBucket (srcObj.GetDestObjectKey config.Name) ∈
        (resizeS3Object w t srcObj).trace.drop t.length := by
  rw [resizeS3Object_of_run_open w t srcObj hw]
  refine ⟨rfl, rfl, ?_⟩
  intro config hc
  simp only [List.append_assoc, List.drop_left]
  constructor
  · apply List.mem_append_right
    exact List.mem_flatMap.2 ⟨config, hc, by simp [presetCalls]⟩
  · apply List.mem_append_right
    exact List.mem_flatMap.2 ⟨config, hc, by simp [presetCalls]⟩

/-- C5 (amended), in the world where exactly the upload of `x/thumbnail.jpg`
fails: all four presets of the source object `x.jpg` are resized and
uploaded. -/
theorem resizeS3Object_upload_failure_isolated_witness :
    (∀ h, failPut "x/thumbnail.jpg".toList h
      (Call.PutObject thumbnailPreset.DestBucket
        (xjpg.GetDestObjectKey thumbnailPreset.Name)) = false) ∧
    (resizeS3Object (failPut "x/thumbnail.jpg".toList) [] xjpg).out = Outcome.returned none ∧
    (resizeS3Object (failPut "x/thumbnail.jpg".toList) [] xjpg).trace =
      [] ++ fetchCalls xjpg ++ ResizeConfigs.flatMap (presetCalls xjpg) ∧
    ∀ config ∈ ResizeConfigs,
      Call.Run (convertArgs config xjpg) ∈
        (resizeS3Object (failPut "x/thumbnail.jpg".toList) [] xjpg).trace.drop
          ([] : List Call).length ∧
      Call.PutObject config.DestBucket (xjpg.GetDestObjectKey config.Name) ∈
        (resizeS3Object (failPut "x/thumbnail.jpg".toList) [] xjpg).trace.drop
          ([] : List Call).length :=
  ⟨fun _ => rfl,
    resizeS3Object_upload_failure_isolated (failPut "x/thumbnail.jpg".toList) [] xjpg
      (failPut_spec "x/thumbnail.jpg".toList)⟩

/-- C6. When `GetObject` fails for a source object, `resizeS3Object` makes that
one call and the process exits with status 1: no `convert` run and no
`PutObject` call is made for the object. -/
theorem resizeS3Object_fetch_failure (w : World) (t : List Call) (srcObj : SrcObject)
    (hf : w t (Call.GetObject srcObj.Bucket srcObj.Key) = false) :
    (resizeS3Object w t srcObj).trace = t ++ [Call.GetObject srcObj.Bucket srcObj.Key] ∧
    (resizeS3Object w t srcObj).out = Outcome.exited 1 ∧
    (∀ args, Call.Run args ∉ (resizeS3Object w t srcObj).trace.drop t.length) ∧
    (∀ b k, Call.PutObject b k ∉ (resizeS3Object w t srcObj).trace.drop t.length) := by
  have h : resizeS3Object w t srcObj =
      ⟨t ++ [Call.GetObject srcObj.Bucket srcObj.Key], Outcome.exited 1⟩ := by
    unfold resizeS3Object
    rw [if_neg (by simp [hf])]
  rw [h]
  refine ⟨rfl, rfl, ?_, ?_⟩
  · intro args; simp
  · intro b k; simp

/-- C6, in the world where `GetObject` fails, for the source object `x.jpg`. -/
theorem resizeS3Object_fetch_failure_witness :
    failGet [] (Call.GetObject xjpg.Bucket xjpg.Key) = false ∧
    (resizeS3Object failGet [] xjpg).trace = [] ++ [Call.GetObject xjpg.Bucket xjpg.Key] ∧
    (resizeS3Object failGet [] xjpg).out = Outcome.exited 1 ∧
    (∀ args, Call.Run args ∉
      (resizeS3Object failGet [] xjpg).trace.drop ([] : List Call).length) ∧
    (∀ b k, Call.PutObject b k ∉
      (resizeS3Object failGet [] xjpg).trace.drop ([] : List Call).length) :=
  ⟨rfl, resizeS3Object_fetch_failure failGet [] xjpg rfl⟩

/-- C7 (counterexample). For the batch with the single record (`src`,
`x.jpg`), in the world where only the resize of the preset `thumbnail` fails,
every fetch call succeeds, yet `ResizeImages` does not return: the process
exits with status 1. -/
theorem ResizeImages_aborts_without_fetch_failure :
    (∀ h c, (∀ args, c ≠ Call.Run args) →
      failRun (convertArgs thumbnailPreset xjpg) h c = true) ∧
    (ResizeImages (failRun (convertArgs thumbnailPreset xjpg)) [] xjpgEvent).trace =
      fetchCalls xjpg ++ [Call.Run (convertArgs thumbnailPreset xjpg)] ∧
    (ResizeImages (failRun (convertArgs thumbnailPreset xjpg)) [] xjpgEvent).out =
      Outcome.exited 1 ∧
    (ResizeImages (failRun (convertArgs thumbnailPreset xjpg)) [] xjpgEvent).out ≠
      Outcome.returned none := by
  refine ⟨?_, by decide, by decide, by decide⟩
  intro h c hc
  simp [failRun, hc]

/-- C7 (amended). For every batch whose keys are non-empty: when every fetch
call (`GetObject`, `os.Create`, `io.Copy`), every `convert` run and every
opening of an output file succeed, `ResizeImages` returns `nil`, whichever
`PutObject` calls fail.  So the invocation fails only if a fetch step, a resize
step or the opening of an output file failed, and an upload failure never
fails it. -/
theorem ResizeImages_returns_nil (w : World) (t : List Call) (s3Event : S3Event)
    (hkeys : ∀ r ∈ s3Event.Records, r.ObjectKey ≠ [])
    (hw : ∀ h c, (∀ b k, c ≠ Call.PutObject b k) → w h c = true) :
    (ResizeImages w t s3Event).out = Outcome.returned none := by
  unfold ResizeImages
  exact recordsLoop_of_run_open w s3Event.Records t hkeys hw

/-- C7 (amended), for the batch with the single record (`src`, `x.jpg`) in the
world where exactly the upload of `x/thumbnail.jpg` fails. -/
theorem ResizeImages_returns_nil_witness :
    (∀ r ∈ xjpgEvent.Records, r.ObjectKey ≠ []) ∧
    (∀ h, failPut "x/thumbnail.jpg".toList h
      (Call.PutObject "hngry-images".toList "x/thumbnail.jpg".toList) = false) ∧
    (ResizeImages (failPut "x/thumbnail.jpg".toList) [] xjpgEvent).out =
      Outcome.returned none :=
  ⟨by decide, fun _ => rfl,
    ResizeImages_returns_nil (failPut "x/thumbnail.jpg".toList) [] xjpgEvent (by decide)
      (failPut_spec "x/thumbnail.jpg".toList)⟩

end Thumbnail
